import Mathlib

/-!
Shallow embedding of the config auto-update engine (the configUpdater
module): template expansion, the last-updates journal, conditional
download request and response handling, the backup-then-replace commit
procedure, and the per-file / all-files update orchestration.

Asynchronous operations are modelled by passing the outcome of each
awaited step explicitly (a rejected promise becomes an `Except.error`
outcome); the filesystem is modelled as an association list from path to
file content, with fault flags describing which primitive operations
fail.  A failing primitive operation is modelled as leaving the
filesystem unchanged.
-/

namespace ConfigUpdater

/-- JSON-like runtime values (the secrets object handed to `expand`).
JavaScript `undefined` is modelled as `none` at every use site. -/
inductive JSValue where
  | null
  | str (s : String)
  | num (n : Int)
  | boolean (b : Bool)
  | obj (fields : List (String × JSValue))

/-- Lookup in an association list keyed by strings (models reading an own
property of a plain JavaScript object). -/
def lookupKey {α : Type} : List (String × α) → String → Option α
  | [], _ => none
  | (k, v) :: t, p => if k = p then some v else lookupKey t p

/-- Remove every binding of a key from an association list. -/
def removeKey {α : Type} : List (String × α) → String → List (String × α)
  | [], _ => []
  | (k, v) :: t, p => if k = p then removeKey t p else (k, v) :: removeKey t p

/-- Set the binding of a key in an association list (models assignment of
an object property). -/
def setKey {α : Type} (l : List (String × α)) (p : String) (v : α) : List (String × α) :=
  (p, v) :: removeKey l p

/-- One step of the path lookup in `expand`: the reduction callback
`(parent && parent.hasOwnProperty(property)) ? parent[property] : undefined`.
Only plain objects are truthy values with own data properties here, so a
non-object parent yields undefined. -/
def lookupStep (parent : Option JSValue) (property : String) : Option JSValue :=
  match parent with
  | some (JSValue.obj fields) => lookupKey fields property
  | _ => none

/-- The `expression.split(".").reduce(...)` lookup of a dot-separated
path, starting from the source object. -/
def lookupPath (start : Option JSValue) (props : List String) : Option JSValue :=
  props.foldl lookupStep start

/-- Split a character list on the dot character, exactly like
`String.prototype.split(".")` (an empty input yields one empty field,
and separators at the ends yield empty fields). -/
def splitDots : List Char → List (List Char)
  | [] => [[]]
  | '.' :: rest => [] :: splitDots rest
  | c :: rest =>
    match splitDots rest with
    | [] => [[c]]
    | p :: ps => (c :: p) :: ps

/-- The property names of an expander expression: `expression.split(".")`. -/
def pathProps (e : String) : List String :=
  (splitDots e.data).map (fun cs => (⟨cs⟩ : String))

/-- String coercion performed by `String.prototype.replace` on the value
returned from the replacement callback. -/
def jsToString : JSValue → String
  | JSValue.null => ("null")
  | JSValue.str s => s
  | JSValue.num n => toString n
  | JSValue.boolean true => ("true")
  | JSValue.boolean false => ("false")
  | JSValue.obj _ => ("[object Object]")

/-- The body of the replacement callback in `expand`, after the path
lookup: given the looked-up value and the optional default text, return
the replacement string together with the flag recording whether this
placeholder set `unresolved`.  A defined scalar is used as is; an
undefined value, a null value or an object falls back to the default
when the default group matched; an undefined or null value without a
default yields the empty string and, unless `alwaysExpand` is set, marks
the expansion unresolved. -/
def resolveValue (value : Option JSValue) (dflt : Option String) (alwaysExpand : Bool) :
    String × Bool :=
  match value, dflt with
  | some (JSValue.str s), _ => (s, false)
  | some (JSValue.num n), _ => (toString n, false)
  | some (JSValue.boolean b), _ => (jsToString (JSValue.boolean b), false)
  | some (JSValue.obj _), some d => (d, false)
  | some JSValue.null, some d => (d, false)
  | none, some d => (d, false)
  | some (JSValue.obj fs), none => (jsToString (JSValue.obj fs), false)
  | some JSValue.null, none => (("" : String), !alwaysExpand)
  | none, none => (("" : String), !alwaysExpand)

/-- A token of the template string: either a literal character, or one
placeholder with its expression and optional default text. -/
inductive Token where
  | lit (c : Char)
  | placeholder (expr : String) (dflt : Option String)

/-- Character class test for the end of the expression group of the
placeholder pattern (the expression group excludes the question mark and
the closing brace). -/
def exprEnd (c : Char) : Bool := c = '?' || c = '}'

/-- Try to match the tail of the placeholder pattern right after the
two-character opener: an expression group, an optional question mark
followed by a default group, and a closing brace.  Returns the
expression, the optional default and the characters after the match. -/
def parsePlaceholder (l : List Char) : Option (String × Option String × List Char) :=
  match l.dropWhile (fun c => !exprEnd c) with
  | '}' :: after => some (⟨l.takeWhile (fun c => !exprEnd c)⟩, none, after)
  | '?' :: rest2 =>
    match rest2.dropWhile (fun c => !(c = '}')) with
    | '}' :: after =>
      some (⟨l.takeWhile (fun c => !exprEnd c)⟩,
            some (⟨rest2.takeWhile (fun c => !(c = '}'))⟩ : String), after)
    | _ => none
  | _ => none

/-- Fuel-indexed scanner for the global placeholder pattern: at each
position, either match a placeholder and continue after it, or emit one
literal character and continue, exactly as a global regex replace scans
the subject.  One unit of fuel is spent per emitted token and every step
consumes at least one character, so fuel equal to the length of the
input never runs out. -/
def tokenizeFuel : Nat → List Char → List Token
  | 0, _ => []
  | _, [] => []
  | fuel + 1, '$' :: '{' :: rest =>
    match parsePlaceholder rest with
    | some (e, d, after) => Token.placeholder e d :: tokenizeFuel fuel after
    | none => Token.lit '$' :: tokenizeFuel fuel ('{' :: rest)
  | fuel + 1, c :: rest => Token.lit c :: tokenizeFuel fuel rest

/-- Scan a whole template into tokens. -/
def tokenize (l : List Char) : List Token :=
  tokenizeFuel l.length l

/-- Render one token: a literal character stands for itself; a
placeholder is resolved through the path lookup and `resolveValue`. -/
def renderToken (src : JSValue) (alwaysExpand : Bool) : Token → String × Bool
  | Token.lit c => ((⟨[c]⟩ : String), false)
  | Token.placeholder e d => resolveValue (lookupPath (some src) (pathProps e)) d alwaysExpand

/-- Render a token list left to right, concatenating the replacement
text and accumulating the `unresolved` flag. -/
def renderTokens (src : JSValue) (alwaysExpand : Bool) : List Token → String × Bool
  | [] => (("" : String), false)
  | t :: ts =>
    ((renderToken src alwaysExpand t).1 ++ (renderTokens src alwaysExpand ts).1,
     (renderToken src alwaysExpand t).2 || (renderTokens src alwaysExpand ts).2)

/-- configUpdater.expand: replace every placeholder of the template
using the source object; if any placeholder was left unresolved (and
`alwaysExpand` did not suppress the flag), return null, otherwise the
expanded string. -/
def expand (unexpanded : String) (sourceObject : JSValue) (alwaysExpand : Bool) :
    Option String :=
  if (renderTokens sourceObject alwaysExpand (tokenize unexpanded.data)).2 then none
  else some (renderTokens sourceObject alwaysExpand (tokenize unexpanded.data)).1

/-- A placeholder token is unresolved when it has no default group and
its path lookup yields undefined or null; these are exactly the
placeholders that set the `unresolved` flag when `alwaysExpand` is
false. -/
def tokenIsUnresolved (src : JSValue) : Token → Bool
  | Token.lit _ => false
  | Token.placeholder e d =>
    d.isNone &&
      (match lookupPath (some src) (pathProps e) with
       | none => true
       | some JSValue.null => true
       | _ => false)

/-- A file entry of the last-updates journal: the ETag and date of the
last successful download, and the path of the previous version. -/
structure LastUpdate where
  etag : Option String
  date : Option String
  previous : Option String
deriving DecidableEq

/-- A missing or falsy journal entry is replaced by an empty object. -/
def defaultLastUpdate : LastUpdate :=
  { etag := none, date := none, previous := none }

/-- The last-updates journal: the informational lastCheck timestamp and
the per-path file entries. -/
structure Journal where
  lastCheck : Option String
  files : List (String × LastUpdate)
deriving DecidableEq

/-- The journal substituted when the journal file cannot be used. -/
def emptyJournal : Journal :=
  { lastCheck := none, files := [] }

/-- configUpdater.loadLastUpdates: the outcome of reading the journal
file is `none` when the file is missing or unreadable, and the abstract
`parse` argument stands for JSON5 parsing composed with the conversion
to a journal value, returning `none` on a parse error (or a falsy parsed
value).  Any failure is only logged and an empty journal is substituted;
the promise executor only ever calls resolve, so the function is total:
it never produces an error outcome. -/
def loadLastUpdates (readResult : Option String) (parse : String → Option Journal) :
    Journal :=
  match readResult.bind parse with
  | none => emptyJournal
  | some j => j

/-- One entry of the auto update configuration (config.autoUpdate.files). -/
structure AutoUpdateFile where
  url : String
  path : String
  always : Bool
  isJSON : Bool
deriving DecidableEq

/-- The conditional download options built by updateFile and consumed by
downloadFile (the object literal with the date and etag fields). -/
structure DownloadOptions where
  date : Option String
  etag : Option String
deriving DecidableEq

/-- The two conditional request headers downloadFile may set. -/
structure RequestHeaders where
  ifNoneMatch : Option String
  ifModifiedSince : Option String
deriving DecidableEq

/-- Header construction of configUpdater.downloadFile: after the
Object.assign defaulting, If-None-Match is set to the quoted etag when
the etag option is truthy (present and non-empty), and If-Modified-Since
is set to the date option when it is truthy. -/
def buildHeaders (options : Option DownloadOptions) : RequestHeaders :=
  let etag := options.bind (fun o => o.etag)
  let date := options.bind (fun o => o.date)
  { ifNoneMatch :=
      match etag with
      | some e => if e = "" then none else some (("\"" : String) ++ e ++ ("\"" : String))
      | none => none,
    ifModifiedSince :=
      match date with
      | some d => if d = "" then none else some d
      | none => none }

/-- JavaScript String.prototype.substring on character positions: the
two indices are swapped when out of order and clamped to the length. -/
def jsSubstring (s : String) (start stop : Nat) : String :=
  ⟨(s.data.drop (min start stop)).take (max start stop - min start stop)⟩

/-- Test for a weak validator: etag.startsWith with the two-character
weak prefix, expressed as a comparison of the first two characters. -/
def startsWithWeak (l : List Char) : Bool :=
  decide (l.take 2 = ['W', '/'])

/-- ETag handling of a 200 response in downloadFile: a falsy (missing or
empty) header or a weak validator with the two-character W/ prefix is
discarded; surrounding double quotes are removed (with the index
swapping of the substring call); any other value is kept as is. -/
def extractEtag : Option String → Option String
  | none => none
  | some e =>
    if e = "" then none
    else if startsWithWeak e.data then none
    else if e.data.head? = some '"' ∧ e.data.getLast? = some '"' then
      some (jsSubstring e 1 (e.length - 1))
    else some e

/-- The logical-or with undefined applied to the Last-Modified header:
an empty header value becomes undefined. -/
def orUndefined : Option String → Option String
  | some s => if s = "" then none else some s
  | none => none

/-- The result resolved by configUpdater.downloadFile. -/
inductive DownloadResult where
  | notModified
  | content (hash : String) (etag : Option String) (date : Option String)
deriving DecidableEq

/-- Processing of an HTTP 200 response in downloadFile, after the body
was streamed to the temporary file and hashed: the result carries the
hash, the extracted strong ETag, and the Last-Modified date. -/
def processResponse200 (hash : String) (etagHeader lastModified : Option String) :
    DownloadResult :=
  DownloadResult.content hash (extractEtag etagHeader) (orUndefined lastModified)

/-- The filesystem, as an association list from path to file content. -/
abbrev FS := List (String × String)

/-- Fault flags for one moveFile call: whether the rename primitive and
the copyFile primitive fail at this call site. -/
structure MoveFaults where
  renameFails : Bool
  copyFails : Bool
deriving DecidableEq

/-- fs.copyFile: on success the destination holds the source content and
the source is kept; the call fails when the source is missing or the
fault flag is set, leaving the filesystem unchanged. -/
def copyFileOp (fs : FS) (src dst : String) (fail : Bool) : Except Unit FS :=
  match lookupKey fs src with
  | none => Except.error ()
  | some c => if fail then Except.error () else Except.ok (setKey fs dst c)

/-- fs.rename: on success the destination holds the source content and
the source is removed; the call fails when the source is missing or the
fault flag is set, leaving the filesystem unchanged. -/
def renameOp (fs : FS) (src dst : String) (fail : Bool) : Except Unit FS :=
  match lookupKey fs src with
  | none => Except.error ()
  | some c => if fail then Except.error () else Except.ok (setKey (removeKey fs src) dst c)

/-- configUpdater.moveFile: copy the file when asked to, otherwise try a
rename and fall back to a copy when the rename fails.  Resolves with the
filesystem and the value the promise resolves with (the copy argument of
the resolving call).  Directory creation always succeeds in this model. -/
def moveFile (fs : FS) (src dst : String) (copy : Bool) (f : MoveFaults) :
    Except Unit (FS × Bool) :=
  if copy then
    (copyFileOp fs src dst f.copyFails).map (fun fs2 => (fs2, true))
  else
    match renameOp fs src dst f.renameFails with
    | Except.ok fs2 => Except.ok (fs2, false)
    | Except.error _ => (copyFileOp fs src dst f.copyFails).map (fun fs2 => (fs2, true))

/-- Fault flags for one applyUpdate call: the primary backup moveFile,
the fallback backup moveFile, and the final copy into place. -/
structure ApplyFaults where
  backup1 : MoveFaults
  backup2 : MoveFaults
  install : MoveFaults
deriving DecidableEq

/-- path.join with the Windows separator. -/
def winJoin (a b : String) : String := a ++ ("\\" : String) ++ b

/-- path.basename: the last separator-delimited component of a path. -/
def basename (p : String) : String :=
  (p.split (fun c => c = '/' || c = '\\')).getLastD ("")

/-- configUpdater.applyUpdate: back up the current destination file to
destination + ".previous" (falling back to the well-known directory
under the ProgramData path, keeping only the base filename, when the
first relocation fails), then copy the new file into place, delete the
temporary file and resolve with the backup path used (or none when
there was no file to back up).  Returns the filesystem reached together
with the outcome; the deletion of the temporary file is modelled as
always succeeding. -/
def applyUpdate (programData : String) (fs : FS) (source destination : String)
    (f : ApplyFaults) : FS × Except Unit (Option String) :=
  let install := fun (fs1 : FS) (backupPath : Option String) =>
    match moveFile fs1 source destination true f.install with
    | Except.error _ => (fs1, Except.error ())
    | Except.ok (fs2, _) => (removeKey fs2 source, Except.ok backupPath)
  match lookupKey fs destination with
  | none => install fs none
  | some _ =>
    let backupPath1 := destination ++ (".previous" : String)
    match moveFile fs destination backupPath1 false f.backup1 with
    | Except.ok (fs1, _) => install fs1 (some backupPath1)
    | Except.error _ =>
      let backupPath2 := winJoin (winJoin programData ("Morphic")) (basename backupPath1)
      match moveFile fs destination backupPath2 false f.backup2 with
      | Except.ok (fs1, _) => install fs1 (some backupPath2)
      | Except.error _ => (fs, Except.error ())

/-- The outcomes of the awaited operations inside one updateFile run:
the secrets object, whether the local target file exists, the outcome of
hashing the local file (none when hashing failed; the failure is caught
and logged), the outcome of the download, the outcome of the JSON
validation of the downloaded temporary file, and the outcome of
applyUpdate. -/
structure UpdateEnv where
  secrets : JSValue
  localExists : Bool
  hashResult : Option String
  download : Except Unit DownloadResult
  jsonValid : Except Unit Bool
  applyResult : Except Unit (Option String)

/-- The observable outcome of one updateFile run: the settled value of
the returned promise, whether the commit procedure (applyUpdate) was
invoked, the download options passed to downloadFile (none means an
unconditional request), and the values of the two hash variables at the
final comparison. -/
structure UpdateOutcome where
  result : Except Unit LastUpdate
  applied : Bool
  options : Option DownloadOptions
  downloadHash : Option String
  localHash : Option String

/-- configUpdater.updateFile: expand the URL (skipping the file when the
expansion is null or empty), hash the existing local file, download with
conditional headers only when the local file exists and the always flag
is off, validate JSON content when required, and run applyUpdate only
when the downloaded hash is truthy and differs from the local hash.  A
rejected validation or commit rejects the returned promise; a rejected
download or hash is caught and logged. -/
def updateFile (update : AutoUpdateFile) (lastUpdate : LastUpdate) (env : UpdateEnv) :
    UpdateOutcome :=
  let skip : UpdateOutcome :=
    { result := Except.ok lastUpdate, applied := false, options := none,
      downloadHash := none, localHash := none }
  match expand update.url env.secrets false with
  | none => skip
  | some url =>
    if url = "" then skip
    else
      let localHash := if env.localExists then env.hashResult else none
      let downloadOptions : Option DownloadOptions :=
        if env.localExists && !update.always then
          some { date := lastUpdate.date, etag := lastUpdate.etag }
        else none
      let phase : Except Unit (Option String × LastUpdate) :=
        match env.download with
        | Except.error _ => Except.ok (none, lastUpdate)
        | Except.ok DownloadResult.notModified => Except.ok (none, lastUpdate)
        | Except.ok (DownloadResult.content h e d) =>
          match (if update.isJSON then env.jsonValid else Except.ok true) with
          | Except.error _ => Except.error ()
          | Except.ok true => Except.ok (some h, { lastUpdate with etag := e, date := d })
          | Except.ok false => Except.ok (none, lastUpdate)
      match phase with
      | Except.error _ =>
        { result := Except.error (), applied := false, options := downloadOptions,
          downloadHash := none, localHash := localHash }
      | Except.ok (downloadHash, togo) =>
        match downloadHash with
        | some h =>
          if h ≠ "" ∧ localHash ≠ some h then
            match env.applyResult with
            | Except.ok backupPath =>
              { result := Except.ok { togo with previous := backupPath }, applied := true,
                options := downloadOptions, downloadHash := some h, localHash := localHash }
            | Except.error _ =>
              { result := Except.error (), applied := true, options := downloadOptions,
                downloadHash := some h, localHash := localHash }
          else
            { result := Except.ok togo, applied := false, options := downloadOptions,
              downloadHash := some h, localHash := localHash }
        | none =>
          { result := Except.ok togo, applied := false, options := downloadOptions,
            downloadHash := none, localHash := localHash }

/-- Fold the settled per-file results into the journal file map, in
settlement order: a resolved update is written to the entry of the
file path, a rejected one (caught and logged in updateAll) leaves the
entry unchanged. -/
def applyResults :
    List (String × Except Unit LastUpdate) → List (String × LastUpdate) →
    List (String × LastUpdate)
  | [], acc => acc
  | (p, r) :: rest, acc =>
    applyResults rest
      (match r with
       | Except.ok lu => setKey acc p lu
       | Except.error _ => acc)

/-- configUpdater.updateAll: load the journal once, start updateFile for
every configured file (each reading its entry from the loaded journal),
wait for all of them to settle, fold the results into the journal and
save it.  The second component counts the saveLastUpdates calls, which
is always exactly one; the save is not awaited, so even a failing save
cannot reject the returned promise, and the function is total. -/
def updateAll (files : List AutoUpdateFile) (readResult : Option String)
    (parse : String → Option Journal) (envs : AutoUpdateFile → UpdateEnv) :
    Journal × Nat :=
  let lastUpdates := loadLastUpdates readResult parse
  let results := files.map (fun file =>
    (file.path,
     (updateFile file ((lookupKey lastUpdates.files file.path).getD defaultLastUpdate)
        (envs file)).result))
  ({ lastCheck := lastUpdates.lastCheck, files := applyResults results lastUpdates.files }, 1)

/-- Concrete download options used by the witness instances. -/
def witnessOptions : DownloadOptions :=
  { date := some ("Thu, 01 Jan 1970 00:00:00 GMT"), etag := some ("abc") }

/-- Concrete tracked file used by the witness instances. -/
def witnessFile : AutoUpdateFile :=
  { url := ("https://example.invalid/config.json5"),
    path := ("C:\\Morphic\\config.json5"), always := false, isJSON := false }

/-- Concrete JSON tracked file used by the witness instances. -/
def witnessFileJSON : AutoUpdateFile :=
  { url := ("https://example.invalid/other.json5"),
    path := ("C:\\Morphic\\other.json5"), always := false, isJSON := true }

/-- Concrete journal entry used by the witness instances. -/
def witnessLastUpdate : LastUpdate :=
  { etag := some ("etag0"), date := some ("date0"), previous := some ("prev0") }

/-- Environment whose download yields changed content. -/
def witnessEnvChanged : UpdateEnv :=
  { secrets := JSValue.obj [], localExists := true, hashResult := some ("localhash"),
    download := Except.ok (DownloadResult.content ("newhash") (some ("etag1"))
      (some ("date1"))),
    jsonValid := Except.ok true, applyResult := Except.ok (some ("backuppath")) }

/-- Environment whose downloaded content hashes like the local file. -/
def witnessEnvSame : UpdateEnv :=
  { secrets := JSValue.obj [], localExists := true, hashResult := some ("samehash"),
    download := Except.ok (DownloadResult.content ("samehash") (some ("etag1"))
      (some ("date1"))),
    jsonValid := Except.ok true, applyResult := Except.ok (some ("backuppath")) }

/-- Environment whose JSON validation rejects, so the updateFile promise
rejects. -/
def witnessEnvInvalid : UpdateEnv :=
  { secrets := JSValue.obj [], localExists := true, hashResult := some ("localhash"),
    download := Except.ok (DownloadResult.content ("newhash") (some ("etag1"))
      (some ("date1"))),
    jsonValid := Except.error (), applyResult := Except.ok (some ("backuppath")) }

/-- Concrete filesystem used by the applyUpdate witnesses: the
destination holds the old content and the temporary file the new one. -/
def witnessFS : FS :=
  [(("C:\\Morphic\\config.json5"), ("old content")),
   (("T:\\tmp\\morphic-update.1"), ("new content"))]

/-- Fault-free moveFile flags. -/
def witnessNoFaults : MoveFaults := { renameFails := false, copyFails := false }

/-- Faults where only the final copy into place fails. -/
def witnessInstallFaults : ApplyFaults :=
  { backup1 := witnessNoFaults, backup2 := witnessNoFaults,
    install := { renameFails := false, copyFails := true } }

/-- Fault-free applyUpdate flags. -/
def witnessCleanFaults : ApplyFaults :=
  { backup1 := witnessNoFaults, backup2 := witnessNoFaults, install := witnessNoFaults }

/-! Association list lemmas. -/

theorem lookupKey_setKey_self {α : Type} (l : List (String × α)) (p : String) (v : α) :
    lookupKey (setKey l p v) p = some v := by
  simp [setKey, lookupKey]

theorem lookupKey_removeKey_self {α : Type} (l : List (String × α)) (p : String) :
    lookupKey (removeKey l p) p = none := by
  induction l with
  | nil => rfl
  | cons kv t ih =>
    obtain ⟨k, v⟩ := kv
    by_cases h : k = p <;> simp [removeKey, h, lookupKey, ih]

theorem lookupKey_removeKey_ne {α : Type} (l : List (String × α)) {p q : String}
    (h : p ≠ q) : lookupKey (removeKey l q) p = lookupKey l p := by
  induction l with
  | nil => rfl
  | cons kv t ih =>
    obtain ⟨k, v⟩ := kv
    by_cases hk : k = q
    · subst hk
      have : ¬(k = p) := fun e => h (e.symm)
      simp [removeKey, lookupKey, this, ih]
    · by_cases hp : k = p
      · subst hp
        simp [removeKey, lookupKey, hk]
      · simp [removeKey, lookupKey, hk, hp, ih]

theorem lookupKey_setKey_ne {α : Type} (l : List (String × α)) {p q : String}
    (h : p ≠ q) (v : α) : lookupKey (setKey l q v) p = lookupKey l p := by
  have hq : ¬(q = p) := fun e => h (e.symm)
  simp [setKey, lookupKey, hq, lookupKey_removeKey_ne l h]

/-! Expander lemmas. -/

theorem renderToken_unresolved (src : JSValue) (always : Bool) (t : Token) :
    (renderToken src always t).2 = (!always && tokenIsUnresolved src t) := by
  cases t with
  | lit c => simp [renderToken, tokenIsUnresolved]
  | placeholder e d =>
    simp only [renderToken, tokenIsUnresolved]
    cases hv : lookupPath (some src) (pathProps e) with
    | none => cases d <;> simp [resolveValue, Option.isNone]
    | some v => cases v <;> cases d <;> simp [resolveValue, Option.isNone]

theorem renderTokens_unresolved (src : JSValue) (always : Bool) (ts : List Token) :
    (renderTokens src always ts).2 = (!always && ts.any (fun t => tokenIsUnresolved src t)) := by
  induction ts with
  | nil => simp [renderTokens]
  | cons t ts ih =>
    cases always <;>
      simp [renderTokens, List.any_cons, ih, renderToken_unresolved, Bool.and_or_distrib_left]

/-- Context object of the expansion examples of the specification. -/
def exampleContext : JSValue :=
  JSValue.obj [("a", JSValue.obj [("b", JSValue.obj [("c", JSValue.str ("result"))])])]

/-- C3, counterexample to the claim as stated: a placeholder resolving
to a non-null composite (object) value with no default is not treated
as empty and does not make the expansion fail — the object is coerced
to the text [object Object] and expand returns it, not null, even with
alwaysExpand false. -/
theorem expand_composite_object_counterexample :
    expand ("$\x7ba.b\x7d") exampleContext false = some ("[object Object]") ∧
    expand ("$\x7ba.b\x7d") exampleContext false ≠ none := by
  constructor <;> decide

/-- C3, amended: expand resolves each placeholder independently (a
defined scalar value is used as is; otherwise the default of the
question-mark form when given; otherwise, for an undefined or null
lookup, the empty string — while a non-null composite value with no
default is coerced to the text [object Object] rather than treated as
empty), and returns null exactly when some placeholder fell through to
the empty fallback (its lookup yielded undefined or null and no default
was given) while alwaysExpand is false; the four listed examples hold
unchanged. -/
theorem expand_placeholder_semantics :
    expand ("$\x7ba.b.c\x7d") exampleContext false = some ("result") ∧
    expand ("$\x7ba.x?no\x7d") exampleContext false = some ("no") ∧
    expand ("$\x7bmissing\x7d") (JSValue.obj []) false = none ∧
    expand ("$\x7bmissing\x7d") (JSValue.obj []) true = some ("") ∧
    ∀ (u : String) (src : JSValue) (always : Bool),
      expand u src always = none ↔
        (always = false ∧ ∃ t ∈ tokenize u.data, tokenIsUnresolved src t = true) := by
  refine ⟨by decide, by decide, by decide, by decide, fun u src always => ?_⟩
  have hiff : expand u src always = none ↔
      (renderTokens src always (tokenize u.data)).2 = true := by
    unfold expand
    cases hb : (renderTokens src always (tokenize u.data)).2 <;> simp [hb]
  rw [hiff, renderTokens_unresolved]
  simp [List.any_eq_true]

/-- Closed instance of the expansion null characterization. -/
theorem expand_placeholder_semantics_witness :
    expand ("$\x7bmissing\x7d") (JSValue.obj []) false = none ↔
      (false = false ∧ ∃ t ∈ tokenize (("$\x7bmissing\x7d" : String)).data,
        tokenIsUnresolved (JSValue.obj []) t = true) :=
  expand_placeholder_semantics.2.2.2.2 ("$\x7bmissing\x7d") (JSValue.obj []) false

/-- C9: loadLastUpdates never fails: a missing or unreadable journal
file (no read result) and an unparsable journal file (parse yields
nothing) both resolve with the empty journal, whose files map is empty;
the function is total, so the promise always resolves. -/
theorem loadLastUpdates_never_fails (readResult : Option String)
    (parse : String → Option Journal) :
    (readResult = none → loadLastUpdates readResult parse = emptyJournal) ∧
    (∀ c, readResult = some c → parse c = none →
      loadLastUpdates readResult parse = emptyJournal) := by
  constructor
  · intro h
    subst h
    rfl
  · intro c h hp
    subst h
    simp [loadLastUpdates, Option.bind, hp]

/-- Closed instance of the journal load recovery. -/
theorem loadLastUpdates_never_fails_witness :
    loadLastUpdates none (fun _ => none) = emptyJournal ∧
    loadLastUpdates (some ("not json")) (fun _ => none) = emptyJournal :=
  ⟨(loadLastUpdates_never_fails none (fun _ => none)).1 rfl,
   (loadLastUpdates_never_fails (some ("not json")) (fun _ => none)).2 ("not json") rfl rfl⟩

/-- C5: a truthy etag option yields an If-None-Match header equal to the
etag surrounded by double quotes, a truthy date option yields an
If-Modified-Since header equal to that date, and when no options are
passed neither header is sent.  Presence is JavaScript truthiness (the
source guards both headers with a truthiness test, so a present but
empty option also sends no header). -/
theorem downloadFile_conditional_headers (options : Option DownloadOptions) :
    (∀ o e, options = some o → o.etag = some e → e ≠ "" →
      (buildHeaders options).ifNoneMatch =
        some (("\"" : String) ++ e ++ ("\"" : String))) ∧
    (∀ o d, options = some o → o.date = some d → d ≠ "" →
      (buildHeaders options).ifModifiedSince = some d) ∧
    (options = none →
      (buildHeaders options).ifNoneMatch = none ∧
      (buildHeaders options).ifModifiedSince = none) := by
  refine ⟨?_, ?_, ?_⟩
  · rintro o e rfl he hne
    simp [buildHeaders, he, hne]
  · rintro o d rfl hd hne
    simp [buildHeaders, hd, hne]
  · rintro rfl
    simp [buildHeaders]

/-- Closed instance of the conditional header construction. -/
theorem downloadFile_conditional_headers_witness :
    (buildHeaders (some witnessOptions)).ifNoneMatch =
      some (("\"" : String) ++ ("abc") ++ ("\"" : String)) ∧
    (buildHeaders (some witnessOptions)).ifModifiedSince =
      some ("Thu, 01 Jan 1970 00:00:00 GMT") ∧
    (buildHeaders none).ifNoneMatch = none :=
  ⟨(downloadFile_conditional_headers (some witnessOptions)).1 witnessOptions ("abc")
      rfl rfl (by decide),
   (downloadFile_conditional_headers (some witnessOptions)).2.1 witnessOptions
      ("Thu, 01 Jan 1970 00:00:00 GMT") rfl rfl (by decide),
   ((downloadFile_conditional_headers none).2.2 rfl).1⟩

/-! ETag extraction lemmas. -/

theorem quoted_data (s : String) :
    (("\"" : String) ++ s ++ ("\"" : String)).data = '"' :: (s.data ++ ['"']) := rfl

theorem extractEtag_quoted (s : String) :
    extractEtag (some (("\"" : String) ++ s ++ ("\"" : String))) = some s := by
  have hd := quoted_data s
  have hne : (("\"" : String) ++ s ++ ("\"" : String)) ≠ "" := by
    intro h
    have := congrArg String.data h
    rw [hd] at this
    exact List.cons_ne_nil _ _ this
  have hweak : startsWithWeak (("\"" : String) ++ s ++ ("\"" : String)).data = false := by
    rw [hd]
    simp [startsWithWeak]
  have hhead : (("\"" : String) ++ s ++ ("\"" : String)).data.head? = some '"' := by
    rw [hd]
    rfl
  have hlast : (("\"" : String) ++ s ++ ("\"" : String)).data.getLast? = some '"' := by
    rw [hd, show '"' :: (s.data ++ ['"']) = ('"' :: s.data) ++ ['"'] from rfl]
    exact List.getLast?_concat _
  have hlen : (("\"" : String) ++ s ++ ("\"" : String)).length = s.data.length + 2 := by
    show (("\"" : String) ++ s ++ ("\"" : String)).data.length = s.data.length + 2
    rw [hd]
    simp
  simp only [extractEtag]
  rw [if_neg hne, if_neg (by rw [hweak]; exact Bool.false_ne_true), if_pos ⟨hhead, hlast⟩]
  unfold jsSubstring
  rw [hd, hlen]
  have hmin : min 1 (s.data.length + 2 - 1) = 1 := by omega
  have hmax : max 1 (s.data.length + 2 - 1) = s.data.length + 1 := by omega
  rw [hmin, hmax]
  have htake :
      (List.drop 1 ('"' :: (s.data ++ ['"']))).take (s.data.length + 1 - 1) = s.data := by
    show (s.data ++ ['"']).take (s.data.length + 1 - 1) = s.data
    have h1 : s.data.length + 1 - 1 = s.data.length := by omega
    rw [h1, List.take_left]
  rw [htake]

/-- C7: for an HTTP 200 response, the etag of the result is absent when
the ETag header is falsy (missing or empty), absent when the header is a
weak validator with the W/ prefix, the header with the surrounding
double quotes removed when it is quoted, and the header itself
otherwise; the date of the result is the Last-Modified header. -/
theorem downloadFile_etag_extraction (hash : String) (lastModified : Option String) :
    (processResponse200 hash none lastModified =
      DownloadResult.content hash none (orUndefined lastModified)) ∧
    (∀ e : String, e.data.take 2 = ['W', '/'] →
      processResponse200 hash (some e) lastModified =
        DownloadResult.content hash none (orUndefined lastModified)) ∧
    (∀ s : String,
      processResponse200 hash (some (("\"" : String) ++ s ++ ("\"" : String))) lastModified =
        DownloadResult.content hash (some s) (orUndefined lastModified)) ∧
    (∀ e : String, e ≠ "" → e.data.take 2 ≠ ['W', '/'] →
      (e.data.head? ≠ some '"' ∨ e.data.getLast? ≠ some '"') →
      processResponse200 hash (some e) lastModified =
        DownloadResult.content hash (some e) (orUndefined lastModified)) := by
  refine ⟨rfl, ?_, ?_, ?_⟩
  · intro e he
    have hne : e ≠ "" := by
      intro h
      subst h
      simp at he
    simp [processResponse200, extractEtag, hne, startsWithWeak, he]
  · intro s
    simp [processResponse200, extractEtag_quoted]
  · intro e hne hw hq
    have hw2 : startsWithWeak e.data = false := by
      simp [startsWithWeak, hw]
    rcases hq with hq | hq <;>
      simp [processResponse200, extractEtag, hne, hw2, hq]

/-- Closed instance of the etag extraction. -/
theorem downloadFile_etag_extraction_witness :
    processResponse200 ("hashhex") (some (("\"" : String) ++ ("abc") ++ ("\"" : String)))
        (some ("Thu, 01 Jan 1970 00:00:00 GMT")) =
      DownloadResult.content ("hashhex") (some ("abc"))
        (orUndefined (some ("Thu, 01 Jan 1970 00:00:00 GMT"))) :=
  (downloadFile_etag_extraction ("hashhex")
    (some ("Thu, 01 Jan 1970 00:00:00 GMT"))).2.2.1 ("abc")

/-- C1: updateFile invokes the commit procedure exactly when the
downloaded content hash is defined (and truthy) and differs from the
hash of the currently installed file; when the two hashes are equal the
commit procedure — the only step that touches the target file and its
backup path — is not invoked and the backup path field of the returned
journal entry is unchanged, even though a 200 response was received. -/
theorem updateFile_commit_only_on_hash_change (update : AutoUpdateFile)
    (lastUpdate : LastUpdate) (env : UpdateEnv) :
    ((updateFile update lastUpdate env).applied = true ↔
      ∃ h, (updateFile update lastUpdate env).downloadHash = some h ∧ h ≠ "" ∧
        (updateFile update lastUpdate env).localHash ≠ some h) ∧
    (∀ h, (updateFile update lastUpdate env).downloadHash = some h →
      (updateFile update lastUpdate env).localHash = some h →
      (updateFile update lastUpdate env).applied = false ∧
      ∀ lu, (updateFile update lastUpdate env).result = Except.ok lu →
        lu.previous = lastUpdate.previous) := by
  obtain ⟨sec, lex, hres, dl, jv, ar⟩ := env
  unfold updateFile
  cases hurl : expand update.url sec false with
  | none => constructor <;> simp
  | some url =>
    dsimp only
    by_cases hu : url = ""
    · rw [if_pos hu]
      constructor <;> simp
    · rw [if_neg hu]
      cases dl with
      | error e =>
        cases e
        constructor <;> simp
      | ok r =>
        cases r with
        | notModified => constructor <;> simp
        | content h e d =>
          cases hj : (if update.isJSON then jv else Except.ok true) with
          | error e2 =>
            cases e2
            constructor <;> simp
          | ok valid =>
            cases valid
            · constructor <;> simp
            · dsimp only
              by_cases hc : h ≠ "" ∧ (if lex = true then hres else none) ≠ some h
              · rw [if_pos hc]
                cases ar with
                | ok bp =>
                  refine ⟨⟨fun _ => ⟨h, rfl, hc.1, hc.2⟩, fun _ => rfl⟩, ?_⟩
                  intro h2 hh2 hl2
                  obtain rfl : h = h2 := Option.some.inj hh2
                  exact absurd hl2 hc.2
                | error e3 =>
                  cases e3
                  refine ⟨⟨fun _ => ⟨h, rfl, hc.1, hc.2⟩, fun _ => rfl⟩, ?_⟩
                  intro h2 hh2 hl2
                  obtain rfl : h = h2 := Option.some.inj hh2
                  exact absurd hl2 hc.2
              · rw [if_neg hc]
                refine ⟨⟨fun habs => absurd habs Bool.false_ne_true, fun hex => ?_⟩, ?_⟩
                · obtain ⟨h2, hh2, hne2, hdiff2⟩ := hex
                  obtain rfl : h = h2 := Option.some.inj hh2
                  exact absurd ⟨hne2, hdiff2⟩ hc
                · intro h2 hh2 hl2
                  refine ⟨rfl, ?_⟩
                  intro lu hlu
                  obtain rfl := Except.ok.inj hlu
                  rfl

/-- Closed instance of the commit condition, at an environment whose
downloaded content hashes like the installed file. -/
theorem updateFile_commit_only_on_hash_change_witness :
    (((updateFile witnessFile witnessLastUpdate witnessEnvSame).applied = true ↔
      ∃ h, (updateFile witnessFile witnessLastUpdate witnessEnvSame).downloadHash = some h ∧
        h ≠ "" ∧
        (updateFile witnessFile witnessLastUpdate witnessEnvSame).localHash ≠ some h) ∧
    (∀ h, (updateFile witnessFile witnessLastUpdate witnessEnvSame).downloadHash = some h →
      (updateFile witnessFile witnessLastUpdate witnessEnvSame).localHash = some h →
      (updateFile witnessFile witnessLastUpdate witnessEnvSame).applied = false ∧
      ∀ lu, (updateFile witnessFile witnessLastUpdate witnessEnvSame).result = Except.ok lu →
        lu.previous = witnessLastUpdate.previous)) :=
  updateFile_commit_only_on_hash_change witnessFile witnessLastUpdate witnessEnvSame

/-- C6: when the download returns new content whose hash equals the
existing local file hash (and the content validates), updateFile does
not invoke the commit procedure, but the returned journal entry carries
the new ETag and date of the response while the previous backup path
field is unchanged. -/
theorem updateFile_unchanged_refreshes_metadata (update : AutoUpdateFile)
    (lastUpdate : LastUpdate) (env : UpdateEnv) (url h : String) (e d : Option String)
    (hurl : expand update.url env.secrets false = some url) (hu : url ≠ "")
    (hdl : env.download = Except.ok (DownloadResult.content h e d))
    (hjson : update.isJSON = true → env.jsonValid = Except.ok true)
    (hex : env.localExists = true)
    (hhash : env.hashResult = some h) :
    (updateFile update lastUpdate env).applied = false ∧
    (updateFile update lastUpdate env).result =
      Except.ok { etag := e, date := d, previous := lastUpdate.previous } := by
  obtain ⟨sec, lex, hres, dl, jv, ar⟩ := env
  simp only at hurl hdl hjson hex hhash
  subst hdl hex hhash
  cases hisj : update.isJSON with
  | false => simp [updateFile, hurl, hu, hisj]
  | true => simp [updateFile, hurl, hu, hisj, hjson hisj]

/-- Closed instance of the metadata refresh on unchanged content. -/
theorem updateFile_unchanged_refreshes_metadata_witness :
    (updateFile witnessFileJSON witnessLastUpdate witnessEnvSame).applied = false ∧
    (updateFile witnessFileJSON witnessLastUpdate witnessEnvSame).result =
      Except.ok { etag := some ("etag1"), date := some ("date1"), previous := some ("prev0") } :=
  updateFile_unchanged_refreshes_metadata witnessFileJSON witnessLastUpdate witnessEnvSame
    ("https://example.invalid/other.json5") ("samehash") (some ("etag1")) (some ("date1"))
    (by decide) (by decide) rfl (fun _ => rfl) rfl rfl

/-- C10: updateFile passes the stored ETag and date as conditional
download options exactly when the local target file exists and the
always flag is off; in particular a missing local file forces an
unconditional download even when the journal holds an etag and date. -/
theorem updateFile_conditional_options (update : AutoUpdateFile) (lastUpdate : LastUpdate)
    (env : UpdateEnv) (url : String)
    (hurl : expand update.url env.secrets false = some url) (hu : url ≠ "") :
    (env.localExists = false → (updateFile update lastUpdate env).options = none) ∧
    (update.always = true → (updateFile update lastUpdate env).options = none) ∧
    (env.localExists = true → update.always = false →
      (updateFile update lastUpdate env).options =
        some { date := lastUpdate.date, etag := lastUpdate.etag }) := by
  obtain ⟨sec, lex, hres, dl, jv, ar⟩ := env
  simp only at hurl
  have hopt : (updateFile update lastUpdate ⟨sec, lex, hres, dl, jv, ar⟩).options =
      (if lex && !update.always then
        some { date := lastUpdate.date, etag := lastUpdate.etag }
      else none) := by
    unfold updateFile
    rw [hurl]
    dsimp only
    rw [if_neg hu]
    cases dl with
    | error e =>
      cases e
      rfl
    | ok r =>
      cases r with
      | notModified => rfl
      | content h e d =>
        cases hj : (if update.isJSON then jv else Except.ok true) with
        | error e2 =>
          cases e2
          rfl
        | ok valid =>
          cases valid
          · rfl
          · dsimp only
            by_cases hc : h ≠ "" ∧ (if lex = true then hres else none) ≠ some h
            · rw [if_pos hc]
              cases ar with
              | ok bp => rfl
              | error e3 =>
                cases e3
                rfl
            · rw [if_neg hc]
  refine ⟨?_, ?_, ?_⟩
  · intro h1
    dsimp only at h1
    rw [hopt, h1]
    simp
  · intro h1
    rw [hopt, h1]
    simp
  · intro h1 h2
    dsimp only at h1
    rw [hopt, h1, h2]
    simp

/-- Closed instance of the conditional option construction. -/
theorem updateFile_conditional_options_witness :
    (updateFile witnessFile witnessLastUpdate witnessEnvChanged).options =
      some { date := witnessLastUpdate.date, etag := witnessLastUpdate.etag } :=
  (updateFile_conditional_options witnessFile witnessLastUpdate witnessEnvChanged
    ("https://example.invalid/config.json5") (by decide) (by decide)).2.2 rfl rfl

/-! moveFile lemmas. -/

theorem moveFile_ok_sets {fs : FS} {src dst : String} {copy : Bool} {f : MoveFaults}
    {fs2 : FS} {b : Bool} {c : String}
    (hsrc : lookupKey fs src = some c)
    (h : moveFile fs src dst copy f = Except.ok (fs2, b)) :
    lookupKey fs2 dst = some c := by
  cases copy <;> cases hrf : f.renameFails <;> cases hcf : f.copyFails <;>
    simp [moveFile, copyFileOp, renameOp, hsrc, hrf, hcf, Except.map] at h <;>
    all_goals
      obtain ⟨rfl, rfl⟩ := h
      exact lookupKey_setKey_self _ _ _

theorem moveFile_rename_ok (fs : FS) (src dst c : String) (f : MoveFaults)
    (hsrc : lookupKey fs src = some c) (hrf : f.renameFails = false) :
    moveFile fs src dst false f = Except.ok (setKey (removeKey fs src) dst c, false) := by
  simp [moveFile, renameOp, hsrc, hrf]

theorem moveFile_copy_ok (fs : FS) (src dst c : String) (f : MoveFaults)
    (hsrc : lookupKey fs src = some c) (hcf : f.copyFails = false) :
    moveFile fs src dst true f = Except.ok (setKey fs dst c, true) := by
  simp [moveFile, copyFileOp, hsrc, hcf, Except.map]

theorem moveFile_fail (fs : FS) (src dst : String) (f : MoveFaults)
    (h1 : f.renameFails = true) (h2 : f.copyFails = true) :
    moveFile fs src dst false f = Except.error () := by
  cases hsrc : lookupKey fs src <;>
    simp [moveFile, renameOp, copyFileOp, hsrc, h1, h2, Except.map]

/-- C2: whenever the destination existed before applyUpdate and the call
fails (during the backup relocation or during the move into place), the
old content is still present at the destination, at the primary backup
path or at the fallback backup path — never at none of them, so the
tracked configuration is never left entirely missing. -/
theorem applyUpdate_never_loses_previous (programData : String) (fs : FS)
    (source destination : String) (f : ApplyFaults) (c : String)
    (hdst : lookupKey fs destination = some c)
    (herr : (applyUpdate programData fs source destination f).2 = Except.error ()) :
    lookupKey (applyUpdate programData fs source destination f).1 destination = some c ∨
    lookupKey (applyUpdate programData fs source destination f).1
      (destination ++ (".previous" : String)) = some c ∨
    lookupKey (applyUpdate programData fs source destination f).1
      (winJoin (winJoin programData ("Morphic"))
        (basename (destination ++ (".previous" : String)))) = some c := by
  simp only [applyUpdate, hdst] at herr ⊢
  cases hb1 : moveFile fs destination (destination ++ (".previous" : String)) false
      f.backup1 with
  | ok pr =>
    obtain ⟨fs1, b⟩ := pr
    simp only [hb1] at herr ⊢
    cases hins : moveFile fs1 source destination true f.install with
    | ok pr2 =>
      obtain ⟨fs2, b2⟩ := pr2
      simp [hins] at herr
    | error e =>
      cases e
      simp only [hins] at herr ⊢
      right
      left
      exact moveFile_ok_sets hdst hb1
  | error e =>
    cases e
    simp only [hb1] at herr ⊢
    cases hb2 : moveFile fs destination
        (winJoin (winJoin programData ("Morphic"))
          (basename (destination ++ (".previous" : String)))) false f.backup2 with
    | ok pr =>
      obtain ⟨fs1, b⟩ := pr
      simp only [hb2] at herr ⊢
      cases hins : moveFile fs1 source destination true f.install with
      | ok pr2 =>
        obtain ⟨fs2, b2⟩ := pr2
        simp [hins] at herr
      | error e2 =>
        cases e2
        simp only [hins] at herr ⊢
        right
        right
        exact moveFile_ok_sets hdst hb2
    | error e2 =>
      cases e2
      simp only [hb2] at herr ⊢
      left
      exact hdst

/-- Closed instance of the no-loss property, where the copy into place
fails after a successful backup. -/
theorem applyUpdate_never_loses_previous_witness :
    lookupKey (applyUpdate ("C:\\ProgramData") witnessFS ("T:\\tmp\\morphic-update.1")
        ("C:\\Morphic\\config.json5") witnessInstallFaults).1
      ("C:\\Morphic\\config.json5") = some ("old content") ∨
    lookupKey (applyUpdate ("C:\\ProgramData") witnessFS ("T:\\tmp\\morphic-update.1")
        ("C:\\Morphic\\config.json5") witnessInstallFaults).1
      (("C:\\Morphic\\config.json5") ++ (".previous" : String)) = some ("old content") ∨
    lookupKey (applyUpdate ("C:\\ProgramData") witnessFS ("T:\\tmp\\morphic-update.1")
        ("C:\\Morphic\\config.json5") witnessInstallFaults).1
      (winJoin (winJoin ("C:\\ProgramData") ("Morphic"))
        (basename (("C:\\Morphic\\config.json5") ++ (".previous" : String)))) =
      some ("old content") :=
  applyUpdate_never_loses_previous ("C:\\ProgramData") witnessFS
    ("T:\\tmp\\morphic-update.1") ("C:\\Morphic\\config.json5") witnessInstallFaults
    ("old content") rfl rfl

/-- C8: applyUpdate relocates an existing destination file to
destination + ".previous"; when that relocation fails it places the
backup under the well-known directory, keeping only the base filename;
on success it deletes the temporary file and resolves with the backup
path actually used, or with no backup path when no destination file
pre-existed. -/
theorem applyUpdate_backup_and_commit (programData : String) (fs : FS)
    (source destination : String) (f : ApplyFaults) (sc : String)
    (hsrc : lookupKey fs source = some sc)
    (hsd : source ≠ destination)
    (hins : f.install.copyFails = false) :
    (lookupKey fs destination = none →
      applyUpdate programData fs source destination f =
        (removeKey (setKey fs destination sc) source, Except.ok none)) ∧
    (∀ c, lookupKey fs destination = some c → f.backup1.renameFails = false →
      (applyUpdate programData fs source destination f).2 =
        Except.ok (some (destination ++ (".previous" : String))) ∧
      lookupKey (applyUpdate programData fs source destination f).1 source = none) ∧
    (∀ c, lookupKey fs destination = some c →
      f.backup1.renameFails = true → f.backup1.copyFails = true →
      f.backup2.renameFails = false →
      (applyUpdate programData fs source destination f).2 =
        Except.ok (some (winJoin (winJoin programData ("Morphic"))
          (basename (destination ++ (".previous" : String))))) ∧
      lookupKey (applyUpdate programData fs source destination f).1 source = none) := by
  refine ⟨?_, ?_, ?_⟩
  · intro hnone
    simp only [applyUpdate, hnone,
      moveFile_copy_ok fs source destination sc f.install hsrc hins]
  · intro c hdst hrf
    have hb1 := moveFile_rename_ok fs destination (destination ++ (".previous" : String)) c
      f.backup1 hdst hrf
    have hs1 : ∃ cc, lookupKey
        (setKey (removeKey fs destination) (destination ++ (".previous" : String)) c)
        source = some cc := by
      by_cases hsb : source = destination ++ (".previous" : String)
      · refine ⟨c, ?_⟩
        rw [hsb]
        exact lookupKey_setKey_self _ _ _
      · refine ⟨sc, ?_⟩
        rw [lookupKey_setKey_ne _ hsb, lookupKey_removeKey_ne _ hsd]
        exact hsrc
    obtain ⟨cc, hs1⟩ := hs1
    have hinsOk := moveFile_copy_ok
      (setKey (removeKey fs destination) (destination ++ (".previous" : String)) c)
      source destination cc f.install hs1 hins
    simp only [applyUpdate, hdst, hb1, hinsOk]
    exact ⟨trivial, lookupKey_removeKey_self _ _⟩
  · intro c hdst hrf1 hcf1 hrf2
    have hb1 := moveFile_fail fs destination (destination ++ (".previous" : String))
      f.backup1 hrf1 hcf1
    have hb2 := moveFile_rename_ok fs destination
      (winJoin (winJoin programData ("Morphic"))
        (basename (destination ++ (".previous" : String)))) c f.backup2 hdst hrf2
    have hs1 : ∃ cc, lookupKey
        (setKey (removeKey fs destination)
          (winJoin (winJoin programData ("Morphic"))
            (basename (destination ++ (".previous" : String)))) c) source = some cc := by
      by_cases hsb : source = winJoin (winJoin programData ("Morphic"))
          (basename (destination ++ (".previous" : String)))
      · refine ⟨c, ?_⟩
        rw [hsb]
        exact lookupKey_setKey_self _ _ _
      · refine ⟨sc, ?_⟩
        rw [lookupKey_setKey_ne _ hsb, lookupKey_removeKey_ne _ hsd]
        exact hsrc
    obtain ⟨cc, hs1⟩ := hs1
    have hinsOk := moveFile_copy_ok
      (setKey (removeKey fs destination)
        (winJoin (winJoin programData ("Morphic"))
          (basename (destination ++ (".previous" : String)))) c)
      source destination cc f.install hs1 hins
    simp only [applyUpdate, hdst, hb1, hb2, hinsOk]
    exact ⟨trivial, lookupKey_removeKey_self _ _⟩

/-- Closed instance of the backup and commit behavior, on the fault-free
path with a pre-existing destination. -/
theorem applyUpdate_backup_and_commit_witness :
    (applyUpdate ("C:\\ProgramData") witnessFS ("T:\\tmp\\morphic-update.1")
        ("C:\\Morphic\\config.json5") witnessCleanFaults).2 =
      Except.ok (some (("C:\\Morphic\\config.json5") ++ (".previous" : String))) ∧
    lookupKey (applyUpdate ("C:\\ProgramData") witnessFS ("T:\\tmp\\morphic-update.1")
        ("C:\\Morphic\\config.json5") witnessCleanFaults).1
      ("T:\\tmp\\morphic-update.1") = none :=
  (applyUpdate_backup_and_commit ("C:\\ProgramData") witnessFS
    ("T:\\tmp\\morphic-update.1") ("C:\\Morphic\\config.json5") witnessCleanFaults
    ("new content") rfl (by decide) rfl).2.1 ("old content") rfl rfl

/-! updateAll lemmas. -/

theorem applyResults_append (a b : List (String × Except Unit LastUpdate))
    (acc : List (String × LastUpdate)) :
    applyResults (a ++ b) acc = applyResults b (applyResults a acc) := by
  induction a generalizing acc with
  | nil => rfl
  | cons pr rest ih =>
    obtain ⟨p, r⟩ := pr
    simp only [List.cons_append, applyResults]
    exact ih _

theorem applyResults_notMem (rs : List (String × Except Unit LastUpdate))
    (acc : List (String × LastUpdate)) (p : String)
    (hp : p ∉ rs.map Prod.fst) :
    lookupKey (applyResults rs acc) p = lookupKey acc p := by
  induction rs generalizing acc with
  | nil => rfl
  | cons pr rest ih =>
    obtain ⟨q, r⟩ := pr
    simp only [List.map_cons, List.mem_cons] at hp
    push_neg at hp
    simp only [applyResults]
    rw [ih _ hp.2]
    cases r with
    | ok lu => exact lookupKey_setKey_ne _ hp.1 _
    | error e => rfl

/-- C4: updateAll loads the journal once, runs the per-file update for
every tracked file, folds every settled outcome into the journal, and
persists the journal exactly once afterwards; the function is total, so
the returned promise never rejects.  A failing file leaves its journal
entry unchanged while every other file is still processed and the
journal persisted.  Tracked paths are assumed distinct, matching the
keyed disjoint journal writes of the design. -/
theorem updateAll_journal_contract (files : List AutoUpdateFile)
    (readResult : Option String) (parse : String → Option Journal)
    (envs : AutoUpdateFile → UpdateEnv)
    (hnodup : (files.map (fun f => f.path)).Nodup) :
    (updateAll files readResult parse envs).2 = 1 ∧
    ∀ file ∈ files,
      ((updateFile file
          ((lookupKey (loadLastUpdates readResult parse).files file.path).getD
            defaultLastUpdate) (envs file)).result = Except.error () →
        lookupKey (updateAll files readResult parse envs).1.files file.path =
          lookupKey (loadLastUpdates readResult parse).files file.path) ∧
      (∀ lu, (updateFile file
          ((lookupKey (loadLastUpdates readResult parse).files file.path).getD
            defaultLastUpdate) (envs file)).result = Except.ok lu →
        lookupKey (updateAll files readResult parse envs).1.files file.path = some lu) := by
  constructor
  · rfl
  · intro file hmem
    obtain ⟨l1, l2, rfl⟩ := List.mem_iff_append.mp hmem
    rw [List.map_append, List.map_cons, List.nodup_append] at hnodup
    obtain ⟨hA, hfB, hdisj⟩ := hnodup
    have hnin2 : file.path ∉ l2.map (fun f => f.path) := (List.nodup_cons.mp hfB).1
    have hnin1 : file.path ∉ l1.map (fun f => f.path) :=
      fun hmem1 => hdisj hmem1 (List.mem_cons_self _ _)
    have hkey2 : file.path ∉ (l2.map (fun f =>
        (f.path, (updateFile f
          ((lookupKey (loadLastUpdates readResult parse).files f.path).getD
            defaultLastUpdate) (envs f)).result))).map Prod.fst := by
      simpa [List.map_map, Function.comp] using hnin2
    have hkey1 : file.path ∉ (l1.map (fun f =>
        (f.path, (updateFile f
          ((lookupKey (loadLastUpdates readResult parse).files f.path).getD
            defaultLastUpdate) (envs f)).result))).map Prod.fst := by
      simpa [List.map_map, Function.comp] using hnin1
    constructor
    · intro herr
      simp only [updateAll]
      rw [List.map_append, List.map_cons, applyResults_append]
      simp only [applyResults, herr]
      rw [applyResults_notMem _ _ _ hkey2, applyResults_notMem _ _ _ hkey1]
    · intro lu hok
      simp only [updateAll]
      rw [List.map_append, List.map_cons, applyResults_append]
      simp only [applyResults, hok]
      rw [applyResults_notMem _ _ _ hkey2]
      exact lookupKey_setKey_self _ _ _

/-- Closed instance of the updateAll contract: the JSON file fails
validation and keeps its journal entry, and the journal is persisted
exactly once. -/
theorem updateAll_journal_contract_witness :
    (updateAll [witnessFile, witnessFileJSON] none (fun _ => none)
        (fun f => if f.isJSON then witnessEnvInvalid else witnessEnvChanged)).2 = 1 ∧
    lookupKey (updateAll [witnessFile, witnessFileJSON] none (fun _ => none)
        (fun f => if f.isJSON then witnessEnvInvalid else witnessEnvChanged)).1.files
      witnessFileJSON.path =
      lookupKey (loadLastUpdates none (fun _ => none)).files witnessFileJSON.path := by
  have h := updateAll_journal_contract [witnessFile, witnessFileJSON] none (fun _ => none)
    (fun f => if f.isJSON then witnessEnvInvalid else witnessEnvChanged) (by decide)
  exact ⟨h.1, (h.2 witnessFileJSON (by decide)).1 rfl⟩

end ConfigUpdater
